import Mathlib

/-!
Verification of the CFG Ukraine analytics core: the fact aggregator
(trend, summary statistics, variance, projections in
`src/services/onelake_data_service.py` and `src/services/rag_retriever.py`),
the hierarchical account resolver (`_build_account_hierarchy` /
`get_all_descendants`), the smart-cache lifecycle, and the query classifier
(`src/agents/classifier_agent.py`).

Numbers are modelled as rationals; Python strings as Lean `String`
(operating on the character list, since the Python code only lowercases,
strips whitespace and tests substrings); finite dataframes as lists of rows.
-/

namespace CFG

/-- Python `str.lower()`, character by character. -/
def pyLower (s : String) : String := String.mk (s.data.map Char.toLower)

/-- Python `str.strip()`: drop whitespace at both ends. -/
def pyStrip (s : String) : String :=
  String.mk (((s.data.dropWhile Char.isWhitespace).reverse.dropWhile Char.isWhitespace).reverse)

/-- Does `needle` occur at the head of `hay`? (helper for the substring test). -/
def leadEq : List Char → List Char → Bool
  | [], _ => true
  | _ :: _, [] => false
  | n :: ns, h :: hs => n == h && leadEq ns hs

/-- Does `needle` occur anywhere in `hay`? (helper for the substring test). -/
def subIn (needle : List Char) : List Char → Bool
  | [] => leadEq needle []
  | h :: hs => leadEq needle (h :: hs) || subIn needle hs

/-- Python `needle in hay` on strings. -/
def strIn (needle hay : String) : Bool := subIn needle.data hay.data

/-- Canonical period order used for sorting and for the variance period lookup
(`period_order` / `periods` in `onelake_data_service.py`). -/
def periodOrder : List String :=
  ["Jan", "Feb", "Mar", "Apr", "May", "Jun", "Jul", "Aug", "Sep", "Oct", "Nov", "Dec"]

/-! ## Trend computation

`OneLakeDataService.get_metric_data` lines 362-372, duplicated verbatim in
`RAGRetriever.retrieve_for_descriptive` lines 125-135. -/

/-- `growth = ((amounts[-1] / amounts[0]) - 1) * 100 if amounts[0] != 0 else 0`. -/
def growthOf (amounts : List ℚ) : ℚ :=
  if amounts.headD 0 ≠ 0 then (amounts.getLastD 0 / amounts.headD 0 - 1) * 100 else 0

structure TrendInfo where
  direction : String
  growthPct : ℚ
deriving Repr, DecidableEq

/-- The trend block of `get_metric_data`: requires at least two aggregated
amounts, classifies by the ±5 thresholds, otherwise reports
`insufficient_data` with growth 0.  The source additionally rounds the
reported `growth_pct` to two decimals for display; the classification is done
on the unrounded value, which is what we keep. -/
def trendOf (amounts : List ℚ) : TrendInfo :=
  if 2 ≤ amounts.length then
    { direction :=
        if growthOf amounts > 5 then "increasing"
        else if growthOf amounts < -5 then "decreasing"
        else "stable",
      growthPct := growthOf amounts }
  else { direction := "insufficient_data", growthPct := 0 }

/-! ## Summary statistics

The guarded block of `get_metric_data` (lines 352-360) and the unguarded
block of `retrieve_for_descriptive` (lines 113-123). -/

structure SummaryStats where
  total : ℚ
  average : ℚ
  minV : ℚ
  maxV : ℚ
  periods : Nat
deriving Repr, DecidableEq

/-- numpy `arr.min()` on the aggregated amounts: raises `ValueError` on an
empty array, modelled as `none`. -/
def npMin (l : List ℚ) : Option ℚ :=
  match l with
  | [] => none
  | x :: xs => some (xs.foldl min x)

/-- numpy `arr.max()`: raises on an empty array, modelled as `none`. -/
def npMax (l : List ℚ) : Option ℚ :=
  match l with
  | [] => none
  | x :: xs => some (xs.foldl max x)

/-- numpy `arr.mean()`: NaN on an empty array, modelled as `none`. -/
def npMean (l : List ℚ) : Option ℚ :=
  if l.length = 0 then none else some (l.sum / (l.length : ℚ))

/-- The `stats` dict of `get_metric_data` (lines 354-360): `average`, `min`
and `max` are guarded by `if len(amounts) > 0 else 0`; `total` is a plain sum
(numpy sum of an empty array is 0). -/
def metricSummaryStats (amounts : List ℚ) : SummaryStats :=
  { total := amounts.sum,
    average := if 0 < amounts.length then amounts.sum / (amounts.length : ℚ) else 0,
    minV := if 0 < amounts.length then (npMin amounts).getD 0 else 0,
    maxV := if 0 < amounts.length then (npMax amounts).getD 0 else 0,
    periods := amounts.length }

/-- The `summary_stats` dict of `RAGRetriever.retrieve_for_descriptive`
(lines 116-123): the same statistics but with NO emptiness guard, so `mean`,
`min` and `max` are applied to the raw numpy array.  `none` models the
NaN/`ValueError` outcome on an empty array. -/
def ragSummaryStats (amounts : List ℚ) : Option SummaryStats :=
  match npMean amounts, npMin amounts, npMax amounts with
  | some avg, some mn, some mx =>
      some { total := amounts.sum, average := avg, minV := mn, maxV := mx,
             periods := amounts.length }
  | _, _, _ => none

/-! ## Claim C1: trend direction thresholds -/

/-- C1. For every aggregated amount sequence of length ≥ 2 the direction is
`increasing` iff growth > 5, `decreasing` iff growth < -5 and `stable`
otherwise (so growth exactly 5 is `stable`), where the growth percentage is
`(last/first - 1) * 100`, guarded to 0 when the first amount is 0; sequences
of length < 2 give `insufficient_data` with growth 0. -/
theorem trend_direction_thresholds (amounts : List ℚ) :
    (2 ≤ amounts.length →
      ((trendOf amounts).direction = "increasing" ↔ growthOf amounts > 5) ∧
      ((trendOf amounts).direction = "decreasing" ↔ growthOf amounts < -5) ∧
      ((trendOf amounts).direction = "stable" ↔
        (¬ growthOf amounts > 5 ∧ ¬ growthOf amounts < -5)) ∧
      (growthOf amounts = 5 → (trendOf amounts).direction = "stable") ∧
      (amounts.headD 0 = 0 → growthOf amounts = 0) ∧
      (trendOf amounts).growthPct = growthOf amounts) ∧
    (amounts.length < 2 →
      (trendOf amounts).direction = "insufficient_data" ∧
      (trendOf amounts).growthPct = 0) := by
  constructor
  · intro hlen
    have hg0 : amounts.headD 0 = 0 → growthOf amounts = 0 := by
      intro h0; rw [growthOf, h0]; simp
    have ht : trendOf amounts =
        { direction :=
            if growthOf amounts > 5 then "increasing"
            else if growthOf amounts < -5 then "decreasing"
            else "stable",
          growthPct := growthOf amounts } := by
      rw [trendOf, if_pos hlen]
    rw [ht]
    have hID : ("increasing" : String) ≠ "decreasing" := by decide
    have hIS : ("increasing" : String) ≠ "stable" := by decide
    have hDI : ("decreasing" : String) ≠ "increasing" := by decide
    have hDS : ("decreasing" : String) ≠ "stable" := by decide
    have hSI : ("stable" : String) ≠ "increasing" := by decide
    have hSD : ("stable" : String) ≠ "decreasing" := by decide
    by_cases h1 : growthOf amounts > 5
    · rw [if_pos h1]
      refine ⟨iff_of_true rfl h1, iff_of_false hID (by intro h; linarith), ?_, ?_, hg0, rfl⟩
      · exact iff_of_false hIS (fun h => h.1 h1)
      · intro h5; exfalso; rw [h5] at h1; norm_num at h1
    · rw [if_neg h1]
      by_cases h2 : growthOf amounts < -5
      · rw [if_pos h2]
        refine ⟨iff_of_false hDI h1, iff_of_true rfl h2, ?_, ?_, hg0, rfl⟩
        · exact iff_of_false hDS (fun h => h.2 h2)
        · intro h5; exfalso; rw [h5] at h2; norm_num at h2
      · rw [if_neg h2]
        exact ⟨iff_of_false hSI h1, iff_of_false hSD h2,
          iff_of_true rfl ⟨h1, h2⟩, fun _ => rfl, hg0, rfl⟩
  · intro hlen
    have : ¬ 2 ≤ amounts.length := by omega
    simp [trendOf, this]

/-- Witness for C1 at concrete inputs: growth exactly 5 gives `stable`, and a
single amount gives `insufficient_data`. -/
theorem trend_direction_thresholds_witness :
    (trendOf [100, 105]).direction = "stable" ∧
    (trendOf [100]).direction = "insufficient_data" := by
  constructor
  · exact ((trend_direction_thresholds [100, 105]).1 (by decide)).2.2.1.mpr
      (by norm_num [growthOf])
  · exact ((trend_direction_thresholds [100]).2 (by decide)).1

/-! ## Claim C9: summarising an empty amount sequence -/

/-- C9 (code bug).  The claim says every code path defines average/min/max of
zero amounts as 0, never NaN and never an exception.  The guarded statistics
of `get_metric_data` do return all zeros on the empty sequence, but the
`retrieve_for_descriptive` fallback path (also cited by the claim) applies
numpy `mean`/`min`/`max` to the raw, possibly empty array with no guard, so
on an empty aggregation it produces NaN and raises `ValueError` instead of
returning zeros. -/
theorem summarize_empty_guarded_vs_rag :
    metricSummaryStats [] =
      { total := 0, average := 0, minV := 0, maxV := 0, periods := 0 } ∧
    ragSummaryStats [] = none := by
  constructor
  · simp [metricSummaryStats]
  · rfl

/-! ## Variance analysis

`OneLakeDataService.get_variance_analysis` (lines 434-483). -/

/-- One row of the actuals fact table (`FCCS_ACTUAL_POWERBI.csv`). -/
structure FactRow where
  period : String
  years : String
  entity : String
  account : String
  amount : ℚ
deriving Repr, DecidableEq

/-- `periods.index(period) if period in periods else -1`. -/
def currentIdxOf (period : String) : Int :=
  match periodOrder.indexOf? period with
  | some i => (i : Int)
  | none => -1

/-- Previous-period selection (lines 457-460): the prior month for `MoM` with
a non-first period; otherwise the current period itself, defaulting to `Jan`
when the period string is not a known month. -/
def prevPeriodFor (comparison period : String) : String :=
  if comparison = "MoM" ∧ 0 < currentIdxOf period then
    periodOrder.getD (currentIdxOf period - 1).toNat ""
  else if 0 ≤ currentIdxOf period then periodOrder.getD (currentIdxOf period).toNat ""
  else "Jan"

/-- `df[df['Period'] == p]['Amount'].sum()`. -/
def periodTotal (df : List FactRow) (p : String) : ℚ :=
  ((df.filter (fun r => r.period == p)).map FactRow.amount).sum

/-- The year filter plus the metric filter of `get_variance_analysis`
(lines 442-449); `codesFor` stands for `get_account_codes_for_metric`. -/
def varianceBase (rows : List FactRow) (codesFor : String → List String)
    (metric year : String) : List FactRow :=
  let df := rows.filter (fun r => r.years == year)
  if pyLower metric ≠ "total" then
    if codesFor metric ≠ [] then df.filter (fun r => (codesFor metric).contains r.account)
    else df
  else df

structure VarianceResult where
  period : String
  metric : String
  comparison : String
  currentValue : ℚ
  previousValue : ℚ
  previousPeriod : String
  variance : ℚ
  variancePct : ℚ
  factors : List (String × ℚ)
deriving Repr, DecidableEq

/-- `get_variance_analysis` (lines 434-483). -/
def getVarianceAnalysis (rows : List FactRow) (codesFor : String → List String)
    (metric period comparison year : String) : VarianceResult :=
  let df := varianceBase rows codesFor metric year
  let prevPeriod := prevPeriodFor comparison period
  let currentTotal := periodTotal df period
  let prevTotal := periodTotal df prevPeriod
  let variance := currentTotal - prevTotal
  let variancePct := if prevTotal ≠ 0 then variance / prevTotal * 100 else 0
  { period := period, metric := metric, comparison := comparison,
    currentValue := currentTotal, previousValue := prevTotal,
    previousPeriod := prevPeriod, variance := variance, variancePct := variancePct,
    factors := [("Volume changes", variancePct * 0.4),
                ("Price fluctuations", variancePct * 0.35),
                ("Cost structure", variancePct * 0.25)] }

/-- Scenario B fact rows: Jan=100, Feb=110, Mar=130 in FY24. -/
def scenarioBRows : List FactRow :=
  [{ period := "Jan", years := "FY24", entity := "CFG Ukraine", account := "A100", amount := 100 },
   { period := "Feb", years := "FY24", entity := "CFG Ukraine", account := "A100", amount := 110 },
   { period := "Mar", years := "FY24", entity := "CFG Ukraine", account := "A100", amount := 130 }]

/-! ## Claim C8: variance formula and month-over-month selection -/

/-- C8. Variance is current minus previous, variance percentage is
variance/previous*100 guarded to 0 on a zero previous value; for `MoM` the
previous period is the immediately prior calendar month (within the one
fiscal year the data was filtered to); on the scenario B data, `MoM` for Mar
gives variance 20 and variance percentage 200/11 ≈ 18.18. -/
theorem variance_formula_mom (rows : List FactRow) (codesFor : String → List String)
    (metric period comparison year : String) :
    ((getVarianceAnalysis rows codesFor metric period comparison year).variance =
      (getVarianceAnalysis rows codesFor metric period comparison year).currentValue -
      (getVarianceAnalysis rows codesFor metric period comparison year).previousValue) ∧
    ((getVarianceAnalysis rows codesFor metric period comparison year).previousValue ≠ 0 →
      (getVarianceAnalysis rows codesFor metric period comparison year).variancePct =
      (getVarianceAnalysis rows codesFor metric period comparison year).variance /
      (getVarianceAnalysis rows codesFor metric period comparison year).previousValue * 100) ∧
    ((getVarianceAnalysis rows codesFor metric period comparison year).previousValue = 0 →
      (getVarianceAnalysis rows codesFor metric period comparison year).variancePct = 0) ∧
    (∀ i : ℕ, comparison = "MoM" → periodOrder.indexOf? period = some i → 0 < i →
      (getVarianceAnalysis rows codesFor metric period comparison year).previousPeriod =
        periodOrder.getD (i - 1) "") ∧
    ((getVarianceAnalysis scenarioBRows (fun _ => []) "total" "Mar" "MoM" "FY24").variance = 20 ∧
     (getVarianceAnalysis scenarioBRows (fun _ => []) "total" "Mar" "MoM" "FY24").variancePct = 200/11 ∧
     |(getVarianceAnalysis scenarioBRows (fun _ => []) "total" "Mar" "MoM" "FY24").variancePct
        - 18.18| < 0.01) := by
  refine ⟨rfl, ?_, ?_, ?_, ?_⟩
  · intro hne
    simp only [getVarianceAnalysis] at hne ⊢
    rw [if_pos hne]
  · intro hz
    simp only [getVarianceAnalysis] at hz ⊢
    rw [if_neg (by simp [hz])]
  · intro i hc hi hpos
    have hidx : currentIdxOf period = (i : Int) := by simp [currentIdxOf, hi]
    have hcond : comparison = "MoM" ∧ 0 < currentIdxOf period :=
      ⟨hc, by rw [hidx]; exact_mod_cast hpos⟩
    have htn : (currentIdxOf period - 1).toNat = i - 1 := by rw [hidx]; omega
    simp only [getVarianceAnalysis, prevPeriodFor, if_pos hcond, htn]
  · have hbase : varianceBase scenarioBRows (fun _ => []) "total" "FY24" = scenarioBRows := by
      decide
    have hprev : prevPeriodFor "MoM" "Mar" = "Feb" := by decide
    have hmar : periodTotal scenarioBRows "Mar" = 130 := by simp [periodTotal, scenarioBRows]
    have hfeb : periodTotal scenarioBRows "Feb" = 110 := by simp [periodTotal, scenarioBRows]
    refine ⟨?_, ?_, ?_⟩
    · simp only [getVarianceAnalysis, hbase, hprev, hmar, hfeb]
      norm_num
    · simp only [getVarianceAnalysis, hbase, hprev, hmar, hfeb]
      rw [if_pos (by norm_num : (110 : ℚ) ≠ 0)]
      norm_num
    · simp only [getVarianceAnalysis, hbase, hprev, hmar, hfeb]
      rw [if_pos (by norm_num : (110 : ℚ) ≠ 0)]
      norm_num [abs_lt]

/-- Witness for C8: the nonzero-previous branch and the MoM selection,
applied at the scenario B data. -/
theorem variance_formula_mom_witness :
    (getVarianceAnalysis scenarioBRows (fun _ => []) "total" "Mar" "MoM" "FY24").variancePct =
      (getVarianceAnalysis scenarioBRows (fun _ => []) "total" "Mar" "MoM" "FY24").variance /
      (getVarianceAnalysis scenarioBRows (fun _ => []) "total" "Mar" "MoM" "FY24").previousValue
        * 100 ∧
    (getVarianceAnalysis scenarioBRows (fun _ => []) "total" "Mar" "MoM" "FY24").previousPeriod =
      "Feb" := by
  have hbase : varianceBase scenarioBRows (fun _ => []) "total" "FY24" = scenarioBRows := by
    decide
  have hprev : prevPeriodFor "MoM" "Mar" = "Feb" := by decide
  have hfeb : periodTotal scenarioBRows "Feb" = 110 := by simp [periodTotal, scenarioBRows]
  constructor
  · exact (variance_formula_mom scenarioBRows (fun _ => []) "total" "Mar" "MoM" "FY24").2.1
      (by simp only [getVarianceAnalysis, hbase, hprev, hfeb]; norm_num)
  · exact (variance_formula_mom scenarioBRows (fun _ => []) "total" "Mar" "MoM" "FY24").2.2.2.1
      2 rfl (by decide) (by decide)

/-! ## Claim C10: non-MoM comparisons degenerate to zero variance -/

/-- C10. For any comparison other than `MoM` (including `YoY` and budget
comparisons), and for `MoM` with period `Jan`, the previous period is the
current period itself, so variance and variance percentage are always 0; and
the result depends only on the rows of the requested fiscal year (no
prior-year or budget data is consulted). -/
theorem variance_degenerate_prev (rows : List FactRow) (codesFor : String → List String)
    (metric period comparison year : String)
    (hp : period ∈ periodOrder) (h : comparison ≠ "MoM" ∨ period = "Jan") :
    (getVarianceAnalysis rows codesFor metric period comparison year).previousPeriod = period ∧
    (getVarianceAnalysis rows codesFor metric period comparison year).variance = 0 ∧
    (getVarianceAnalysis rows codesFor metric period comparison year).variancePct = 0 ∧
    getVarianceAnalysis rows codesFor metric period comparison year =
      getVarianceAnalysis (rows.filter (fun r => r.years == year)) codesFor metric period
        comparison year := by
  have hprev : prevPeriodFor comparison period = period := by
    rcases h with h | h
    · fin_cases hp <;>
        · rw [prevPeriodFor, if_neg (fun hc => h hc.1)]
          decide
    · subst h
      rw [prevPeriodFor, if_neg (fun hc => absurd hc.2 (by decide))]
      decide
  refine ⟨?_, ?_, ?_, ?_⟩
  · simp only [getVarianceAnalysis, hprev]
  · simp only [getVarianceAnalysis, hprev, sub_self]
  · simp only [getVarianceAnalysis, hprev, sub_self]
    split_ifs <;> simp
  · have hff : (rows.filter (fun r => r.years == year)).filter (fun r => r.years == year)
        = rows.filter (fun r => r.years == year) := by
      rw [List.filter_filter]
      simp
    simp only [getVarianceAnalysis, varianceBase, hff]

/-- Witness for C10: a `YoY` comparison on the scenario B data has zero
variance. -/
theorem variance_degenerate_prev_witness :
    (getVarianceAnalysis scenarioBRows (fun _ => []) "total" "Sep" "YoY" "FY24").variance = 0 ∧
    (getVarianceAnalysis scenarioBRows (fun _ => []) "total" "Sep" "YoY" "FY24").variancePct
      = 0 := by
  have h := variance_degenerate_prev scenarioBRows (fun _ => []) "total" "Sep" "YoY" "FY24"
    (by decide) (Or.inl (by decide))
  exact ⟨h.2.1, h.2.2.1⟩

/-! ## Projections

`RAGRetriever.retrieve_for_predictive` (lines 230-244). -/

structure Projection where
  period : String
  year : String
  projectedAmount : ℚ
  confidence : ℚ
deriving Repr, DecidableEq

/-- `periods = ['Jan', 'Feb', 'Mar']  # Next FY` (line 235). -/
def nextPeriods : List String := ["Jan", "Feb", "Mar"]

/-- The projection loop of `retrieve_for_predictive`: requires at least 3
observed amounts, per-step delta `(amounts[-1] - amounts[0]) / len(amounts)`,
added cumulatively to the last value over the fixed three-month horizon, with
confidence `0.85 - i * 0.1`. -/
def projectionsOf (amounts : List ℚ) : List Projection :=
  if 3 ≤ amounts.length then
    nextPeriods.enum.map (fun ip =>
      { period := ip.2, year := "FY25",
        projectedAmount := amounts.getLastD 0 +
          (amounts.getLastD 0 - amounts.headD 0) / (amounts.length : ℚ) * ((ip.1 : ℚ) + 1),
        confidence := 0.85 - (ip.1 : ℚ) * 0.1 })
  else []

/-- The projection as worded by claim C2 and spec §4.3 `project`: per-step
delta `(last - first) / (count - 1)` over the trailing 8 periods (or all
available when fewer), minimum 3 observations, cumulative from the last
observed value.  Stated only for comparison against `projectionsOf`, which is
what the code computes. -/
def projectionsClaim (amounts : List ℚ) : List Projection :=
  if 3 ≤ amounts.length then
    nextPeriods.enum.map (fun ip =>
      { period := ip.2, year := "FY25",
        projectedAmount := amounts.getLastD 0 +
          ((amounts.drop (amounts.length - 8)).getLastD 0 -
            (amounts.drop (amounts.length - 8)).headD 0) /
            (((amounts.drop (amounts.length - 8)).length : ℚ) - 1) * ((ip.1 : ℚ) + 1),
        confidence := 0.85 - (ip.1 : ℚ) * 0.1 })
  else []

/-! ## Claim C2: linear projection -/

/-- Counterexample to C2 as stated: on the three observed amounts 0, 0, 3 the
code's per-step delta is `(3-0)/3 = 1` (division by the count, over all
periods), not the claimed `(3-0)/(3-1) = 1.5`, so the projected sequences
differ. -/
theorem projection_delta_counterexample :
    projectionsOf [0, 0, 3] ≠ projectionsClaim [0, 0, 3] := by
  intro h
  have h4 := congrArg (List.map Projection.projectedAmount) h
  rw [show (projectionsOf [0, 0, 3]).map Projection.projectedAmount = [4, 5, 6] by
        norm_num [projectionsOf, nextPeriods, List.enum, List.enumFrom],
      show (projectionsClaim [0, 0, 3]).map Projection.projectedAmount = [9/2, 6, 15/2] by
        norm_num [projectionsClaim, nextPeriods, List.enum, List.enumFrom]] at h4
  norm_num at h4

/-- C2 as amended: with at least 3 observed amounts the projection is the
fixed three-period horizon Jan/Feb/Mar of FY25 with per-step delta
`(last - first) / count` computed over ALL observed periods (not a trailing-8
window and not count-1), added cumulatively to the last observed value;
fewer than 3 amounts give an empty projection; confidence starts at 0.85,
decreases by 0.1 per step and stays positive on this fixed horizon. -/
theorem projection_linear_amended (amounts : List ℚ) :
    (3 ≤ amounts.length →
      projectionsOf amounts =
        [{ period := "Jan", year := "FY25",
           projectedAmount := amounts.getLastD 0 +
             (amounts.getLastD 0 - amounts.headD 0) / (amounts.length : ℚ) * 1,
           confidence := 0.85 },
         { period := "Feb", year := "FY25",
           projectedAmount := amounts.getLastD 0 +
             (amounts.getLastD 0 - amounts.headD 0) / (amounts.length : ℚ) * 2,
           confidence := 0.75 },
         { period := "Mar", year := "FY25",
           projectedAmount := amounts.getLastD 0 +
             (amounts.getLastD 0 - amounts.headD 0) / (amounts.length : ℚ) * 3,
           confidence := 0.65 }]) ∧
    (amounts.length < 3 → projectionsOf amounts = []) ∧
    (∀ p ∈ projectionsOf amounts, 0 < p.confidence) := by
  refine ⟨?_, ?_, ?_⟩
  · intro h3
    rw [projectionsOf, if_pos h3]
    simp [nextPeriods, List.enum, List.enumFrom]
    norm_num
  · intro h3
    rw [projectionsOf, if_neg (by omega)]
  · intro p hp
    by_cases h3 : 3 ≤ amounts.length
    · rw [projectionsOf, if_pos h3] at hp
      simp [nextPeriods, List.enum, List.enumFrom] at hp
      rcases hp with h | h | h <;> rw [h] <;> norm_num
    · rw [projectionsOf, if_neg h3] at hp
      simp at hp

/-- Witness for C2 (amended) at the amounts 0, 0, 3. -/
theorem projection_linear_amended_witness :
    projectionsOf [0, 0, 3] =
      [{ period := "Jan", year := "FY25", projectedAmount := 4, confidence := 0.85 },
       { period := "Feb", year := "FY25", projectedAmount := 5, confidence := 0.75 },
       { period := "Mar", year := "FY25", projectedAmount := 6, confidence := 0.65 }] := by
  rw [(projection_linear_amended [0, 0, 3]).1 (by decide)]
  norm_num

/-! ## Account hierarchy

`OneLakeDataService._build_account_hierarchy` and its inner
`get_all_descendants` (lines 127-182). -/

/-- One row of the chart of accounts (`FCC_ACCOUNT_BI.csv`): the `Account`
column and the `Parent` column, `none` when `pd.notna` fails. -/
structure AccountRow where
  account : String
  parent : Option String
deriving Repr, DecidableEq

/-- Append `child` to the bucket of `p`, keeping insertion order — the dict
update `parent_to_children[parent].append(account)` (lines 142-145). -/
def upsert (m : List (String × List String)) (p child : String) : List (String × List String) :=
  match m with
  | [] => [(p, [child])]
  | (k, cs) :: rest => if k == p then (k, cs ++ [child]) :: rest else (k, cs) :: upsert rest p child

/-- The `parent_to_children` dict built from the account rows (lines 138-145):
rows with a missing parent contribute nothing. -/
def parentToChildren (rows : List AccountRow) : List (String × List String) :=
  rows.foldl (fun m row =>
    match row.parent with
    | some p => upsert m p row.account
    | none => m) []

/-- `parent_to_children.get(account_name, [])`. -/
def childrenOf (g : List (String × List String)) (name : String) : List String :=
  match g.lookup name with
  | some cs => cs
  | none => []

/-- The for-loop over `children` in `get_all_descendants` (lines 159-166):
branch children (keys of `parent_to_children`) are expanded via the
recursive call `rec`, leaf children are added to the descendant set; the
`visited` set is shared mutable state in Python, so it threads through the
loop. -/
def gadFold (g : List (String × List String))
    (rec : String → List String → List String × List String) :
    List String → List String → List String × List String
  | [], visited => ([], visited)
  | c :: rest, visited =>
    if (g.lookup c).isSome then
      let r1 := rec c visited
      let r2 := gadFold g rec rest r1.2
      (r1.1 ∪ r2.1, r2.2)
    else
      let r2 := gadFold g rec rest visited
      (r2.1.insert c, r2.2)

/-- `get_all_descendants` (lines 148-168), indexed by fuel: a name already in
`visited` contributes no further descendants.  The fuel only bounds the
recursion depth of the model; `gad_stab` below shows that from the canonical
fuel `gadFuel` upward the result no longer depends on it, i.e. the Python
recursion bottoms out. -/
def getAllDescendants (g : List (String × List String)) :
    Nat → String → List String → List String × List String
  | 0, _, visited => ([], visited)
  | f + 1, name, visited =>
    if name ∈ visited then ([], visited)
    else gadFold g (getAllDescendants g f) (childrenOf g name) (name :: visited)

/-- The keys of `parent_to_children`: exactly the branch labels. -/
def keysOf (g : List (String × List String)) : List String := g.map Prod.fst

/-- Canonical fuel: one more than the number of buckets; every recursive call
visits a distinct key, so this depth is never exhausted. -/
def gadFuel (g : List (String × List String)) : Nat := g.length + 1

/-- `get_all_descendants(account)` as called at build time (line 177). -/
def descendantsFrom (g : List (String × List String)) (name : String) : List String :=
  (getAllDescendants g (gadFuel g) name []).1

/-- `_build_account_hierarchy` (lines 170-182): one entry per name that has a
nonempty descendant set, over the union of all `Parent` and `Account`
values. -/
def buildAccountHierarchy (rows : List AccountRow) : List (String × List String) :=
  let g := parentToChildren rows
  ((rows.filterMap AccountRow.parent ++ rows.map AccountRow.account).dedup).filterMap
    (fun a =>
      let ds := descendantsFrom g a
      if ds.isEmpty then none else some (a, ds))

/-- `hierarchy[account_name]` as consumed by `get_account_codes_for_metric`
(lines 224-227), empty when the name has no entry. -/
def descendantsOf (rows : List AccountRow) (name : String) : List String :=
  match (buildAccountHierarchy rows).lookup name with
  | some ds => ds
  | none => []

/-- The labels that appear as a `Parent` of some row: the branch labels. -/
def parentLabels (rows : List AccountRow) : List String :=
  rows.filterMap AccountRow.parent

/-- One breadth step of reachability along `parent_to_children` edges (used
only to state the acyclicity hypothesis of claim C5). -/
def reachStep (g : List (String × List String)) (s : List String) : List String :=
  (s ++ s.flatMap (childrenOf g)).dedup

/-- Iterated reachability. -/
def reachN (g : List (String × List String)) : Nat → List String → List String
  | 0, s => s
  | n + 1, s => reachN g n (reachStep g s)

/-- Does some branch reach itself through the child relation? -/
def hasCycle (g : List (String × List String)) : Bool :=
  (keysOf g).any (fun k => (reachN g (keysOf g).length (childrenOf g k)).contains k)

/-! ### Helper lemmas for the traversal -/

/-- Counting is monotone in the predicate. -/
theorem countP_le_of_imp {α : Type} (l : List α) (p q : α → Bool)
    (h : ∀ a, p a = true → q a = true) : l.countP p ≤ l.countP q := by
  induction l with
  | nil => simp [List.countP_nil]
  | cons a t ih =>
    rw [List.countP_cons, List.countP_cons]
    split_ifs with h1 h2
    · omega
    · exact absurd (h a h1) h2
    · omega
    · omega

/-- Number of branch labels not yet visited: the measure that shrinks along
the traversal. -/
def unvisitedCount (g : List (String × List String)) (v : List String) : Nat :=
  (keysOf g).countP (fun k => decide (k ∉ v))

theorem unvisitedCount_le (g : List (String × List String)) {v w : List String}
    (h : v ⊆ w) : unvisitedCount g w ≤ unvisitedCount g v := by
  refine countP_le_of_imp _ _ _ (fun a ha => ?_)
  simp only [decide_eq_true_eq] at ha ⊢
  exact fun hav => ha (h hav)

theorem unvisitedCount_lt (g : List (String × List String)) {name : String}
    {v : List String} (hk : name ∈ keysOf g) (hv : name ∉ v) :
    unvisitedCount g (name :: v) < unvisitedCount g v := by
  unfold unvisitedCount
  have hgen : ∀ l : List String, name ∈ l →
      l.countP (fun k => decide (k ∉ name :: v)) < l.countP (fun k => decide (k ∉ v)) := by
    intro l hl
    induction l with
    | nil => simp at hl
    | cons a t ih =>
      rw [List.countP_cons, List.countP_cons]
      by_cases han : a = name
      · subst han
        have h1 : (decide (a ∉ a :: v)) = false := by simp
        have h2 : (decide (a ∉ v)) = true := by simpa using hv
        have hle := countP_le_of_imp t (fun k => decide (k ∉ a :: v)) (fun k => decide (k ∉ v))
          (fun b hb => by
            simp only [decide_eq_true_eq, List.mem_cons] at hb ⊢
            exact fun hbv => hb (Or.inr hbv))
        simp only [h1, h2]
        simp only [Bool.false_eq_true, if_false, if_true]
        omega
      · have heq : (decide (a ∉ name :: v)) = (decide (a ∉ v)) := by
          simp [List.mem_cons, han]
        have hl2 : name ∈ t := by
          rcases List.mem_cons.mp hl with h | h
          · exact absurd h.symm han
          · exact h
        have := ih hl2
        rw [heq]
        split_ifs <;> omega
  exact hgen (keysOf g) hk

/-- A name already visited contributes no descendants (and leaves the visited
set unchanged), at any fuel. -/
theorem gad_revisit (g : List (String × List String)) (fuel : Nat) (name : String)
    (visited : List String) (h : name ∈ visited) :
    getAllDescendants g fuel name visited = ([], visited) := by
  cases fuel with
  | zero => rfl
  | succ f => rw [getAllDescendants, if_pos h]

/-- The visited set only grows along the children loop. -/
theorem gadFold_visited_sub (g : List (String × List String))
    (rec : String → List String → List String × List String)
    (hrec : ∀ name v, v ⊆ (rec name v).2) :
    ∀ cs v, v ⊆ (gadFold g rec cs v).2 := by
  intro cs
  induction cs with
  | nil => intro v; exact fun a ha => ha
  | cons c rest ih =>
    intro v
    rw [gadFold]
    split_ifs with hc
    · exact (hrec c v).trans (ih _)
    · exact ih v

/-- The visited set only grows along the traversal. -/
theorem gad_visited_sub (g : List (String × List String)) :
    ∀ fuel name v, v ⊆ (getAllDescendants g fuel name v).2 := by
  intro fuel
  induction fuel with
  | zero => intro name v a ha; exact ha
  | succ f ih =>
    intro name v
    rw [getAllDescendants]
    split_ifs with hv
    · exact fun a ha => ha
    · exact (List.subset_cons_self name v).trans (gadFold_visited_sub g _ ih _ _)

/-- A successful lookup means the key occurs in the bucket list. -/
theorem mem_keysOf_of_lookup (g : List (String × List String)) (name : String)
    (cs : List String) (h : g.lookup name = some cs) : name ∈ keysOf g := by
  induction g with
  | nil => simp [List.lookup] at h
  | cons p t ih =>
    obtain ⟨k, b⟩ := p
    rw [List.lookup] at h
    cases hkk : (name == k) with
    | true =>
      have := eq_of_beq hkk
      subst this
      exact List.mem_cons_self _ _
    | false =>
      rw [hkk] at h
      exact List.mem_cons_of_mem _ (ih h)

/-- A name that is not a key has no children bucket. -/
theorem childrenOf_eq_nil (g : List (String × List String)) (name : String)
    (h : name ∉ keysOf g) : childrenOf g name = [] := by
  unfold childrenOf
  cases hl : g.lookup name with
  | none => rfl
  | some cs => exact absurd (mem_keysOf_of_lookup g name cs hl) h

/-- Fuel stabilisation for the children loop, given it for the head calls. -/
theorem gadFold_stab (g : List (String × List String)) (f f' : Nat)
    (haux : ∀ name v, unvisitedCount g v < f → unvisitedCount g v < f' →
      getAllDescendants g f name v = getAllDescendants g f' name v) :
    ∀ cs v, unvisitedCount g v < f → unvisitedCount g v < f' →
      gadFold g (getAllDescendants g f) cs v = gadFold g (getAllDescendants g f') cs v := by
  intro cs
  induction cs with
  | nil => intro v _ _; rfl
  | cons c rest ih =>
    intro v hf hf'
    rw [gadFold, gadFold]
    split_ifs with hc
    · have h1 : getAllDescendants g f c v = getAllDescendants g f' c v := haux c v hf hf'
      dsimp only
      rw [h1]
      have hle := unvisitedCount_le g (gad_visited_sub g f' c v)
      rw [ih _ (lt_of_le_of_lt hle hf) (lt_of_le_of_lt hle hf')]
    · dsimp only
      rw [ih v hf hf']

/-- Fuel stabilisation: as soon as the fuel exceeds the number of unvisited
branch labels, the result of the traversal no longer depends on it.  This is
the termination content of the model: the Python recursion, whose depth is
bounded by the same measure thanks to the `visited` set, always bottoms
out. -/
theorem gad_stab (g : List (String × List String)) :
    ∀ f f' name v, unvisitedCount g v < f → unvisitedCount g v < f' →
      getAllDescendants g f name v = getAllDescendants g f' name v := by
  intro f
  induction f using Nat.strong_induction_on with
  | _ f IH =>
    intro f' name v hf hf'
    cases f with
    | zero => omega
    | succ fa =>
      cases f' with
      | zero => omega
      | succ fb =>
        rw [getAllDescendants, getAllDescendants]
        split_ifs with hv
        · rfl
        · by_cases hk : name ∈ keysOf g
          · have hdec : unvisitedCount g (name :: v) < unvisitedCount g v :=
              unvisitedCount_lt g hk hv
            exact gadFold_stab g fa fb
              (fun nm v2 h1 h2 => IH fa (by omega) fb nm v2 h1 h2)
              (childrenOf g name) (name :: v) (by omega) (by omega)
          · rw [childrenOf_eq_nil g name hk]
            rfl

/-- Everything the children loop collects is a non-key (a leaf label). -/
theorem gadFold_mem_not_key (g : List (String × List String))
    (rec : String → List String → List String × List String)
    (hrec : ∀ name v x, x ∈ (rec name v).1 → g.lookup x = none) :
    ∀ cs v x, x ∈ (gadFold g rec cs v).1 → g.lookup x = none := by
  intro cs
  induction cs with
  | nil => intro v x hx; simp [gadFold] at hx
  | cons c rest ih =>
    intro v x hx
    rw [gadFold] at hx
    split_ifs at hx with hc
    · rcases List.mem_union_iff.mp hx with h1 | h2
      · exact hrec c v x h1
      · exact ih _ x h2
    · rcases List.mem_insert_iff.mp hx with h1 | h2
      · subst h1
        cases hl : g.lookup x with
        | none => rfl
        | some cs2 => exact absurd (by rw [hl]; rfl) hc
      · exact ih _ x h2

/-- Everything `get_all_descendants` returns is a non-key, i.e. never a
branch label, with or without cycles in the data. -/
theorem gad_mem_not_key (g : List (String × List String)) :
    ∀ fuel name v x, x ∈ (getAllDescendants g fuel name v).1 → g.lookup x = none := by
  intro fuel
  induction fuel with
  | zero => intro name v x hx; simp [getAllDescendants] at hx
  | succ f ih =>
    intro name v x hx
    rw [getAllDescendants] at hx
    split_ifs at hx with hv
    · simp at hx
    · exact gadFold_mem_not_key g _ ih _ _ x hx

/-- A successful association-list lookup yields a member pair. -/
theorem pair_of_lookup {β : Type} :
    ∀ (l : List (String × β)) (k : String) (v : β), l.lookup k = some v → (k, v) ∈ l := by
  intro l
  induction l with
  | nil => intro k v h; simp [List.lookup] at h
  | cons p t ih =>
    intro k v h
    obtain ⟨k2, b⟩ := p
    rw [List.lookup] at h
    cases hkk : (k == k2) with
    | true =>
      rw [hkk] at h
      have hk := eq_of_beq hkk
      subst hk
      cases h
      exact List.mem_cons_self _ _
    | false =>
      rw [hkk] at h
      exact List.mem_cons_of_mem _ (ih k v h)

/-- Every bucket looked up in the built hierarchy is a descendant set
computed by the traversal. -/
theorem hierarchy_lookup_shape (rows : List AccountRow) (k : String) (ds : List String)
    (h : (buildAccountHierarchy rows).lookup k = some ds) :
    ds = descendantsFrom (parentToChildren rows) k := by
  have hmem := pair_of_lookup _ k ds h
  unfold buildAccountHierarchy at hmem
  rcases List.mem_filterMap.mp hmem with ⟨a, _, ha⟩
  dsimp only at ha
  by_cases he : (descendantsFrom (parentToChildren rows) a).isEmpty
  · rw [if_pos he] at ha; cases ha
  · rw [if_neg he] at ha
    have h1 : a = k := congrArg Prod.fst (Option.some.inj ha)
    have h2 : descendantsFrom (parentToChildren rows) a = ds :=
      congrArg Prod.snd (Option.some.inj ha)
    rw [← h1]
    exact h2.symm

/-- The key just upserted is present. -/
theorem upsert_lookup_self (m : List (String × List String)) (p c : String) :
    (upsert m p c).lookup p ≠ none := by
  induction m with
  | nil =>
    rw [upsert, List.lookup]
    simp
  | cons q rest ih =>
    obtain ⟨k, cs⟩ := q
    rw [upsert]
    split_ifs with hk
    · rw [List.lookup]
      have hpk : (p == k) = true := by
        have h := eq_of_beq hk
        subst h
        exact beq_self_eq_true _
      rw [hpk]
      simp
    · rw [List.lookup]
      cases hpk : (p == k) with
      | true => simp
      | false => simpa using ih

/-- Upserting never removes a key. -/
theorem upsert_lookup_preserve (m : List (String × List String)) (p c q : String)
    (h : m.lookup q ≠ none) : (upsert m p c).lookup q ≠ none := by
  induction m with
  | nil => rw [List.lookup] at h; exact absurd rfl h
  | cons e rest ih =>
    obtain ⟨k, cs⟩ := e
    rw [List.lookup] at h
    rw [upsert]
    split_ifs with hk
    · rw [List.lookup]
      cases hqk : (q == k) with
      | true => simp
      | false => rw [hqk] at h; simpa using h
    · rw [List.lookup]
      cases hqk : (q == k) with
      | true => simp
      | false =>
        rw [hqk] at h
        simpa using ih h

/-- The fold over the account rows never removes a key either. -/
theorem foldl_preserve (rows : List AccountRow) :
    ∀ (m : List (String × List String)) (p : String), m.lookup p ≠ none →
      (rows.foldl (fun m row =>
        match row.parent with
        | some q => upsert m q row.account
        | none => m) m).lookup p ≠ none := by
  induction rows with
  | nil => intro m p h; exact h
  | cons r t ih =>
    intro m p h
    rw [List.foldl_cons]
    cases hr : r.parent with
    | none => exact ih m p h
    | some q => exact ih _ p (upsert_lookup_preserve m q r.account p h)

/-- Every label that appears as a parent of some row is a key of
`parent_to_children`. -/
theorem parentToChildren_haskey (rows : List AccountRow) (p : String)
    (hp : p ∈ parentLabels rows) : (parentToChildren rows).lookup p ≠ none := by
  unfold parentLabels at hp
  unfold parentToChildren
  have hgen : ∀ (rs : List AccountRow) (m : List (String × List String)),
      p ∈ rs.filterMap AccountRow.parent →
      (rs.foldl (fun m row =>
        match row.parent with
        | some q => upsert m q row.account
        | none => m) m).lookup p ≠ none := by
    intro rs
    induction rs with
    | nil => intro m hm; simp at hm
    | cons r t ih =>
      intro m hm
      rw [List.filterMap_cons] at hm
      rw [List.foldl_cons]
      cases hr : r.parent with
      | none =>
        rw [hr] at hm
        exact ih m hm
      | some q =>
        rw [hr] at hm
        rcases List.mem_cons.mp hm with he | ht
        · subst he
          exact foldl_preserve t _ p (upsert_lookup_self m p r.account)
        · exact ih _ ht
  exact hgen rows [] hp

/-! ## Claim C5: descendant sets contain only leaf labels -/

/-- Example chart of accounts without cycles, for the witness. -/
def exampleRows : List AccountRow :=
  [{ account := "S1", parent := some "Sales" },
   { account := "S2", parent := some "Sales" },
   { account := "Sales", parent := some "IncomeStatement" }]

/-- C5. For every account set without cycles and every root name, the
descendant set contains only leaf labels: it is disjoint from the set of
labels that appear as a parent of any row.  (The proof in fact never needs
the acyclicity hypothesis: the traversal only ever collects non-keys.) -/
theorem descendants_are_leaves (rows : List AccountRow) (root : String)
    (hacyc : hasCycle (parentToChildren rows) = false) :
    ∀ x ∈ descendantsOf rows root, x ∉ parentLabels rows := by
  intro x hx hmem
  have hnone : (parentToChildren rows).lookup x = none := by
    unfold descendantsOf at hx
    cases hl : (buildAccountHierarchy rows).lookup root with
    | none => rw [hl] at hx; simp at hx
    | some ds =>
      rw [hl] at hx
      rw [hierarchy_lookup_shape rows root ds hl] at hx
      exact gad_mem_not_key (parentToChildren rows) _ root [] x hx
  exact parentToChildren_haskey rows x hmem hnone

/-- Witness for C5 on the example rows: `S1` is returned for the root
`IncomeStatement` and indeed labels no parent. -/
theorem descendants_are_leaves_witness : "S1" ∉ parentLabels exampleRows :=
  descendants_are_leaves exampleRows "IncomeStatement" (by decide) "S1" (by decide)

/-! ## Claim C4: termination on cyclic data -/

/-- A self-referencing account row. -/
def selfLoopRows : List AccountRow := [{ account := "A", parent := some "A" }]

/-- A mutually-referencing pair plus one genuine leaf. -/
def mutualRows : List AccountRow :=
  [{ account := "B", parent := some "A" },
   { account := "A", parent := some "B" },
   { account := "L", parent := some "A" }]

/-- C4. The descendant traversal terminates on every account set and returns
a finite set: a revisited node contributes no further descendants, from the
canonical fuel upward the result no longer changes (the recursion bottoms
out before the depth bound, which is what termination means for the
fuel-indexed model), and on the injected self-loop and mutual-reference
examples the traversal returns the expected finite sets. -/
theorem descendants_terminate (g : List (String × List String)) (name : String)
    (k fuel : Nat) (visited : List String) (hv : name ∈ visited) :
    getAllDescendants g fuel name visited = ([], visited) ∧
    getAllDescendants g (gadFuel g + k) name [] = getAllDescendants g (gadFuel g) name [] ∧
    descendantsFrom (parentToChildren selfLoopRows) "A" = [] ∧
    descendantsFrom (parentToChildren mutualRows) "A" = ["L"] := by
  refine ⟨gad_revisit g fuel name visited hv, ?_, by decide, by decide⟩
  have hS : unvisitedCount g [] ≤ g.length := by
    calc unvisitedCount g [] ≤ (keysOf g).length := List.countP_le_length _
    _ = g.length := by simp [keysOf]
  exact gad_stab g _ _ name [] (by unfold gadFuel; omega) (by unfold gadFuel; omega)

/-- Witness for C4 on the self-loop data: a revisited root yields nothing and
extra fuel changes nothing. -/
theorem descendants_terminate_witness :
    getAllDescendants (parentToChildren selfLoopRows) 7 "A" ["A"] = ([], ["A"]) ∧
    getAllDescendants (parentToChildren selfLoopRows)
        (gadFuel (parentToChildren selfLoopRows) + 5) "A" []
      = getAllDescendants (parentToChildren selfLoopRows)
        (gadFuel (parentToChildren selfLoopRows)) "A" [] := by
  have h := descendants_terminate (parentToChildren selfLoopRows) "A" 5 7 ["A"] (by decide)
  exact ⟨h.1, h.2.1⟩

/-! ## Claim C3: cache lifecycle of the hierarchy index

State model of the caches of `OneLakeDataService` restricted to the accounts
file: the `_data_cache` / `_etag_cache` entries for `FCC_ACCOUNT_BI.csv` and
the `_account_hierarchy` memo.  The remote file content is passed to each
operation that may read it. -/

structure ServiceState where
  accountsCache : Option (List AccountRow)
  accountsEtag : Option String
  hierCache : Option (List (String × List String))
deriving Repr, DecidableEq

/-- Fresh service (`__init__`, lines 62-67). -/
def emptyState : ServiceState :=
  { accountsCache := none, accountsEtag := none, hierCache := none }

/-- `get_accounts()` through `_read_csv_with_smart_cache`: cached content is
reused, a miss reads the remote snapshot and stores it with its ETag. -/
def getAccountsOp (remote : List AccountRow) (etag : String) (s : ServiceState) :
    List AccountRow × ServiceState :=
  match s.accountsCache with
  | some rows => (rows, s)
  | none => (remote, { s with accountsCache := some remote, accountsEtag := some etag })

/-- The ETag-change branch of `_read_csv_with_smart_cache` (lines 98-116):
the connector reports the file changed, so the data and ETag caches are
overwritten with the fresh snapshot.  Nothing on this path touches
`_account_hierarchy`. -/
def refreshOnChange (remote : List AccountRow) (etag : String) (s : ServiceState) :
    ServiceState :=
  { s with accountsCache := some remote, accountsEtag := some etag }

/-- `_build_account_hierarchy` (lines 127-135): the memoised index is
returned if present; otherwise it is built from `get_accounts()` and
stored. -/
def buildHierarchyOp (remote : List AccountRow) (etag : String) (s : ServiceState) :
    List (String × List String) × ServiceState :=
  match s.hierCache with
  | some h => (h, s)
  | none =>
    let rs := getAccountsOp remote etag s
    (buildAccountHierarchy rs.1, { rs.2 with hierCache := some (buildAccountHierarchy rs.1) })

/-- `clear_cache()` with no filename (lines 282-287): drops everything,
including `_account_hierarchy`. -/
def clearCacheAll (_s : ServiceState) : ServiceState := emptyState

/-- `clear_cache(filename)` for the accounts file (lines 277-281): pops the
data and ETag caches but leaves `_account_hierarchy` in place. -/
def clearCacheAccounts (s : ServiceState) : ServiceState :=
  { s with accountsCache := none, accountsEtag := none }

/-- Accounts snapshot A and a changed snapshot B. -/
def rowsA : List AccountRow := [{ account := "x", parent := some "P" }]

/-- Snapshot after the change: same parent, different leaf. -/
def rowsB : List AccountRow := [{ account := "y", parent := some "P" }]

/-- C3 fails on the code: after the accounts file changes and the smart cache
refreshes the data (the ETag differs), the next hierarchy lookup still
returns the index built from the OLD snapshot — `_account_hierarchy` is only
dropped by `clear_cache()` with no filename, not by the change-detection
path, and not even by `clear_cache("FCC_ACCOUNT_BI.csv")`. -/
theorem hierarchy_stale_after_change :
    (buildHierarchyOp rowsB "e2"
        (refreshOnChange rowsB "e2" (buildHierarchyOp rowsA "e1" emptyState).2)).1
      = buildAccountHierarchy rowsA ∧
    buildAccountHierarchy rowsA ≠ buildAccountHierarchy rowsB ∧
    (buildHierarchyOp rowsB "e2"
        (clearCacheAccounts (buildHierarchyOp rowsA "e1" emptyState).2)).1
      = buildAccountHierarchy rowsA ∧
    (buildHierarchyOp rowsB "e2"
        (clearCacheAll (buildHierarchyOp rowsA "e1" emptyState).2)).1
      = buildAccountHierarchy rowsB := by
  refine ⟨?_, ?_, ?_, ?_⟩ <;> decide

/-! ## Query classifier

`QueryClassifierAgent` (`src/agents/classifier_agent.py`).  The compiled
regular expressions of `GENERAL_PATTERNS` are modelled as an abstract list of
search functions `String → Bool` (the `re` library is external to the core);
every theorem below holds for an arbitrary such list, in particular for the
fixed one. -/

/-- `FINANCIAL_KEYWORDS` (lines 110-122), verbatim. -/
def FINANCIAL_KEYWORDS : List String :=
  ["ebitda", "revenue", "profit", "margin", "cost", "expense", "income",
   "cash flow", "cashflow", "balance", "asset", "liability", "equity",
   "roi", "roic", "roe", "gross", "net", "operating", "capex", "opex",
   "budget", "actual", "forecast", "variance", "trend", "growth",
   "production", "yield", "volume", "efficiency", "kpi",
   "q1", "q2", "q3", "q4", "fy", "ytd", "mtd", "yoy", "qoq",
   "2020", "2021", "2022", "2023", "2024", "2025",
   "january", "february", "march", "april", "may", "june",
   "july", "august", "september", "october", "november", "december",
   "quarter", "annual", "monthly", "weekly", "daily",
   "cfg", "ukraine", "department", "segment", "entity"]

/-- `any(kw in query_lower for kw in self.FINANCIAL_KEYWORDS)`. -/
def hasFinKwIn (ql : String) : Bool := FINANCIAL_KEYWORDS.any (fun kw => strIn kw ql)

/-- The pattern loop of `_is_general_query` (lines 141-148): the first
matching pattern classifies as general unless the query carries financial
context, in which case the loop continues (and, the keyword test being
pattern-independent, ultimately fails). -/
def isGeneralQueryLoop : List (String → Bool) → String → Bool
  | [], _ => false
  | p :: ps, ql =>
    if p ql then
      if hasFinKwIn ql then isGeneralQueryLoop ps ql else true
    else isGeneralQueryLoop ps ql

/-- `_is_general_query` (lines 136-148): patterns are searched on the
lower-cased, stripped query. -/
def isGeneralQuery (search : List (String → Bool)) (q : String) : Bool :=
  isGeneralQueryLoop search (pyStrip (pyLower q))

/-- `_has_financial_context` (lines 150-153): lower-cases but does not
strip. -/
def hasFinancialContext (q : String) : Bool := hasFinKwIn (pyLower q)

inductive QueryCategory where
  | general
  | descriptive
  | diagnostic
  | predictive
  | prescriptive
deriving Repr, DecidableEq

/-- The part of the pydantic `QueryClassification` model the claims are
about; `category` ranges over the five-member enum by construction. -/
structure Classification where
  category : QueryCategory
  confidence : ℚ
  reasoning : String
deriving Repr, DecidableEq

/-- The parsed JSON dict of a successful LLM call: the raw `category` string
and the optional reported confidence (`result.get("confidence", 0.8)`). -/
structure LLMRaw where
  category : String
  confidence : Option ℚ
  reasoning : String

/-- `QueryCategory(result["category"])`: raises (here `none`) on anything but
the five enum values. -/
def categoryOfString (s : String) : Option QueryCategory :=
  if s = "general" then some .general
  else if s = "descriptive" then some .descriptive
  else if s = "diagnostic" then some .diagnostic
  else if s = "predictive" then some .predictive
  else if s = "prescriptive" then some .prescriptive
  else none

/-- Building the pydantic `QueryClassification` from the parsed response
(lines 204-217): an unknown category string or an out-of-range confidence
(`Field(ge=0, le=1)`) raises, which the caller turns into the fallback. -/
def validateClassification (raw : LLMRaw) : Option Classification :=
  match categoryOfString raw.category with
  | none => none
  | some cat =>
    if 0 ≤ raw.confidence.getD 0.8 ∧ raw.confidence.getD 0.8 ≤ 1 then
      some { category := cat, confidence := raw.confidence.getD 0.8,
             reasoning := raw.reasoning }
    else none

/-- Diagnostic cue words of `_fallback_classification` (line 256). -/
def DIAGNOSTIC_CUES : List String := ["why", "cause", "reason", "explain why", "due to"]

/-- Predictive cue words (line 259). -/
def PREDICTIVE_CUES : List String :=
  ["forecast", "predict", "project", "expect", "will be", "next year", "next quarter"]

/-- Prescriptive cue words (line 262). -/
def PRESCRIPTIVE_CUES : List String :=
  ["recommend", "should we", "improve", "optimize", "suggest", "how to", "how can we"]

/-- Descriptive cue words (line 265). -/
def DESCRIPTIVE_CUES : List String :=
  ["show", "display", "trend", "history", "what was", "what is", "how much"]

/-- `_fallback_classification` (lines 232-277): general pattern at 0.9, no
financial context at 0.7, then the cue lists in priority order at 0.75/0.7,
defaulting to descriptive at 0.6. -/
def fallbackClassification (search : List (String → Bool)) (q : String) : Classification :=
  if isGeneralQuery search q then
    { category := .general, confidence := 0.9,
      reasoning := "Fallback: Detected as general/meta question" }
  else if !(hasFinancialContext q) then
    { category := .general, confidence := 0.7,
      reasoning := "Fallback: No financial context detected" }
  else if DIAGNOSTIC_CUES.any (fun w => strIn w (pyStrip (pyLower q))) then
    { category := .diagnostic, confidence := 0.75,
      reasoning := "Fallback keyword-based classification" }
  else if PREDICTIVE_CUES.any (fun w => strIn w (pyStrip (pyLower q))) then
    { category := .predictive, confidence := 0.75,
      reasoning := "Fallback keyword-based classification" }
  else if PRESCRIPTIVE_CUES.any (fun w => strIn w (pyStrip (pyLower q))) then
    { category := .prescriptive, confidence := 0.75,
      reasoning := "Fallback keyword-based classification" }
  else if DESCRIPTIVE_CUES.any (fun w => strIn w (pyStrip (pyLower q))) then
    { category := .descriptive, confidence := 0.7,
      reasoning := "Fallback keyword-based classification" }
  else
    { category := .descriptive, confidence := 0.6,
      reasoning := "Fallback keyword-based classification" }

/-- `classify` (lines 155-230): the deterministic pre-filter short-circuits
at 0.95; otherwise the LLM result is parsed and validated, any failure
(`llm = none` covers an unconfigured client and transport or JSON errors;
`validateClassification raw = none` covers schema violations) falls back to
the keyword heuristic. -/
def classify (search : List (String → Bool)) (llm : Option LLMRaw) (q : String) :
    Classification :=
  if isGeneralQuery search q then
    { category := .general, confidence := 0.95,
      reasoning := "Detected as general/meta question (not about CFG Ukraine data)" }
  else
    match llm with
    | some raw =>
      match validateClassification raw with
      | some c => c
      | none => fallbackClassification search q
    | none => fallbackClassification search q

/-- The pattern loop is equivalent to: some pattern matches and no financial
keyword occurs. -/
theorem isGeneralQueryLoop_eq (ps : List (String → Bool)) (ql : String) :
    isGeneralQueryLoop ps ql = (ps.any (fun p => p ql) && !(hasFinKwIn ql)) := by
  induction ps with
  | nil => simp [isGeneralQueryLoop]
  | cons p t ih =>
    cases hp : p ql <;> cases hk : hasFinKwIn ql <;>
      simp [isGeneralQueryLoop, hp, hk, ih]

/-! ## Claim C6: pre-filter with keyword override -/

/-- C6. If some general/meta pattern matches the (lower-cased, stripped)
query and no financial keyword occurs in it, classification returns GENERAL
with confidence 0.95 without consulting the LLM (the result is the same
whatever the LLM oracle returns, including nothing); if a pattern matches
but a financial keyword occurs, the pre-filter does not classify the query
as general. -/
theorem prefilter_general (search : List (String → Bool)) (llm : Option LLMRaw) (q : String) :
    (search.any (fun p => p (pyStrip (pyLower q))) = true →
      hasFinKwIn (pyStrip (pyLower q)) = false →
      isGeneralQuery search q = true ∧
      (classify search llm q).category = QueryCategory.general ∧
      (classify search llm q).confidence = 0.95 ∧
      classify search llm q = classify search none q) ∧
    (search.any (fun p => p (pyStrip (pyLower q))) = true →
      hasFinKwIn (pyStrip (pyLower q)) = true →
      isGeneralQuery search q = false) := by
  constructor
  · intro hp hk
    have hg : isGeneralQuery search q = true := by
      rw [isGeneralQuery, isGeneralQueryLoop_eq, hp, hk]
      rfl
    refine ⟨hg, ?_, ?_, ?_⟩
    · rw [classify.eq_def, if_pos hg]
    · rw [classify.eq_def, if_pos hg]
    · rw [classify.eq_def, if_pos hg, classify.eq_def, if_pos hg]
  · intro hp hk
    rw [isGeneralQuery, isGeneralQueryLoop_eq, hp, hk]
    rfl

/-- Witness for C6: a greeting matches its pattern with no financial keyword
and short-circuits to GENERAL at 0.95, while a query that matches a
"what ..." pattern but mentions revenue is not pre-filtered. -/
theorem prefilter_general_witness :
    isGeneralQuery [fun s => s == "hello"] "Hello" = true ∧
    (classify [fun s => s == "hello"] none "Hello").confidence = 0.95 ∧
    isGeneralQuery [fun s => strIn "what" s] "what is our revenue" = false := by
  have h1 := (prefilter_general [fun s => s == "hello"] none "Hello").1
    (by decide) (by decide)
  have h2 := (prefilter_general [fun s => strIn "what" s] none "what is our revenue").2
    (by decide) (by decide)
  exact ⟨h1.1, h1.2.2.1, h2⟩

/-! ## Claim C7: classification is total, valid, and falls back -/

/-- The fallback result is well-formed and rates GENERAL below 0.95. -/
theorem fallback_props (search : List (String → Bool)) (q : String) :
    0 ≤ (fallbackClassification search q).confidence ∧
    (fallbackClassification search q).confidence ≤ 1 ∧
    ((fallbackClassification search q).category = QueryCategory.general →
      (fallbackClassification search q).confidence < 0.95) := by
  unfold fallbackClassification
  split_ifs <;>
    exact ⟨by norm_num, by norm_num, fun _ => by norm_num⟩

/-- A validated LLM classification has its confidence in [0, 1]. -/
theorem validate_bounds (raw : LLMRaw) (c : Classification)
    (h : validateClassification raw = some c) :
    0 ≤ c.confidence ∧ c.confidence ≤ 1 := by
  unfold validateClassification at h
  cases hc : categoryOfString raw.category with
  | none => rw [hc] at h; cases h
  | some cat =>
    rw [hc] at h
    split_ifs at h with hb
    have hc2 := Option.some.inj h
    subst hc2
    exact hb

/-- C7. `classify` is a total function (the model needs no failure case);
its confidence always lies in [0, 1] whatever the LLM oracle returns; when
the pre-filter does not fire, a missing LLM response and an LLM response
that fails validation both yield exactly the keyword fallback; and a GENERAL
classification produced by the fallback carries confidence strictly below
the 0.95 of the pattern pre-filter. -/
theorem classify_total_valid (search : List (String → Bool)) (llm : Option LLMRaw)
    (q : String) :
    (0 ≤ (classify search llm q).confidence ∧ (classify search llm q).confidence ≤ 1) ∧
    (isGeneralQuery search q = false → llm = none →
      classify search llm q = fallbackClassification search q) ∧
    (∀ raw, isGeneralQuery search q = false → llm = some raw →
      validateClassification raw = none →
      classify search llm q = fallbackClassification search q) ∧
    ((fallbackClassification search q).category = QueryCategory.general →
      (fallbackClassification search q).confidence < 0.95) := by
  refine ⟨?_, ?_, ?_, (fallback_props search q).2.2⟩
  · rw [classify.eq_def]
    split_ifs with hg
    · exact ⟨by norm_num, by norm_num⟩
    · cases llm with
      | none => exact ⟨(fallback_props search q).1, (fallback_props search q).2.1⟩
      | some raw =>
        cases hv : validateClassification raw with
        | none =>
          simp only [hv]
          exact ⟨(fallback_props search q).1, (fallback_props search q).2.1⟩
        | some c =>
          simp only [hv]
          exact validate_bounds raw c hv
  · intro hg hn
    subst hn
    rw [classify.eq_def, if_neg (by simp [hg])]
  · intro raw hg hs hv
    subst hs
    rw [classify.eq_def, if_neg (by simp [hg])]
    simp only [hv]

/-- Witness for C7: a malformed LLM category string falls back, and the
result is well-formed. -/
theorem classify_total_valid_witness :
    classify [] (some { category := "bogus", confidence := some 0.5, reasoning := "" }) "zzz"
      = fallbackClassification [] "zzz" ∧
    0 ≤ (classify [] (some { category := "bogus", confidence := some 0.5, reasoning := "" })
        "zzz").confidence := by
  have h := classify_total_valid [] (some ⟨"bogus", some 0.5, ""⟩) "zzz"
  refine ⟨h.2.2.1 ⟨"bogus", some 0.5, ""⟩ (by decide) rfl ?_, h.1.1⟩
  decide

end CFG
